import Mathlib

/-!
Shallow embedding of `src/python-package/xgboost/training.py`: the boosting
training loop (`train`), its distributed checkpoint/recovery protocol and
early-stopping state machine, the evaluation-history recording, and the
cross-validation helpers (`mknfold`, `aggcv`, `cv`).

The Python float values that matter to the embedded logic are the finite
decimal values parsed from evaluation messages together with the sentinel
`float('inf')`; they are modelled exactly by `PyFloat` (rationals plus the two
infinities).  Rational arithmetic is routed through `Rat.divInt`/`mkRat`
(`qAdd`, `qSub`, `qMul`, `qDiv` below) so that every embedded function
evaluates by kernel reduction; the lemmas `qAdd_eq`, `qSub_eq`, `qMul_eq` and
`qDiv_eq` show these are exactly addition, subtraction, multiplication and
division on `ℚ`.
-/

/-- Rational addition, computed on numerators/denominators.  Provably equal
to `a + b` (`qAdd_eq`). -/
def qAdd (a b : ℚ) : ℚ :=
  Rat.divInt (a.num * b.den + b.num * a.den) (a.den * b.den)

/-- Rational subtraction, computed on numerators/denominators.  Provably
equal to `a - b` (`qSub_eq`). -/
def qSub (a b : ℚ) : ℚ :=
  Rat.divInt (a.num * b.den - b.num * a.den) (a.den * b.den)

/-- Rational multiplication, computed on numerators/denominators.  Provably
equal to `a * b` (`qMul_eq`). -/
def qMul (a b : ℚ) : ℚ :=
  Rat.divInt (a.num * b.num) (a.den * b.den)

/-- Rational division, computed on numerators/denominators.  Provably equal
to `a / b` (`qDiv_eq`). -/
def qDiv (a b : ℚ) : ℚ :=
  Rat.divInt (a.num * b.den) (a.den * b.num)

/-- Model of the Python float values flowing through the early-stopping
logic: finite values (exact rationals) and the `float('inf')` /
`float('-inf')` sentinels. -/
inductive PyFloat where
  | negInf : PyFloat
  | fin (q : ℚ) : PyFloat
  | posInf : PyFloat
deriving DecidableEq, Repr

/-- Python comparison `<` on the modelled float values. -/
def pyLt : PyFloat → PyFloat → Bool
  | PyFloat.negInf, PyFloat.negInf => false
  | PyFloat.negInf, _ => true
  | PyFloat.fin _, PyFloat.negInf => false
  | PyFloat.fin a, PyFloat.fin b => a < b
  | PyFloat.fin _, PyFloat.posInf => true
  | PyFloat.posInf, _ => false

/-- Source line 164, `start_iteration = int(version / 2)`: the round index at
which the loop resumes after loading a distributed checkpoint. -/
def startIteration (version : ℕ) : ℕ :=
  version / 2

/-- Source line 167, `for i in range(start_iteration, num_boost_round)`: the
round indices the resumed loop executes. -/
def loopRounds (version num_boost_round : ℕ) : List ℕ :=
  List.range' (startIteration version) (num_boost_round - startIteration version)

/-- Observable per-round state of the checkpoint protocol inside `train`:
the local `version` counter plus logs of which rounds ran `bst.update` and
which rounds ran the evaluation block. -/
structure LoopState where
  version : ℕ
  updates : List ℕ
  evals : List ℕ
deriving DecidableEq, Repr

/-- One iteration of the `train` loop body (source lines 167-231), restricted
to the checkpoint-protocol observables: `bst.update(dtrain, i, obj)` runs only
when `version` is even (lines 176-179, followed by a checkpoint save and
`version += 1`); the evaluation block runs whenever the watch list is
non-empty (line 185); the round ends with a second checkpoint save and
`version += 1` (lines 230-231). -/
def trainRound (hasEvals : Bool) (i : ℕ) (s : LoopState) : LoopState :=
  let s1 := if s.version % 2 = 0 then
      { version := s.version + 1, updates := s.updates ++ [i], evals := s.evals }
    else s
  let s2 := if hasEvals then { s1 with evals := s1.evals ++ [i] } else s1
  { s2 with version := s2.version + 1 }

/-- The whole resumed loop over the checkpoint-protocol observables, starting
from the loaded version. -/
def trainLoop (hasEvals : Bool) (loadedVersion num_boost_round : ℕ) : LoopState :=
  (loopRounds loadedVersion num_boost_round).foldl
    (fun s i => trainRound hasEvals i s)
    { version := loadedVersion, updates := [], evals := [] }

/-- Source line 163, the assertion checked right after loading the rabit
checkpoint: `assert(rabit.get_world_size() != 1 or version == 0)`. -/
def loadAssert (worldSize version : ℕ) : Bool :=
  worldSize != 1 || version == 0

/-- Source line 181, the per-round version-consistency assertion
`assert(rabit.get_world_size() == 1 or version == rabit.version_number())`,
comparing the local `version` counter with the coordination layer's
self-reported version. -/
def boundaryAssert (worldSize localVersion reportedVersion : ℕ) : Bool :=
  worldSize == 1 || localVersion == reportedVersion

/-- Initial `best_score` attribute set by `train` when early stopping is
configured (source lines 152-155): the string `'0.0'` when maximizing,
`'inf'` when minimizing. -/
def trainInitBestScore (maximizeScore : Bool) : PyFloat :=
  if maximizeScore then PyFloat.fin 0 else PyFloat.posInf

/-- Initial `best_iteration` attribute set by `train` (source line 156). -/
def trainInitBestIteration : ℤ := 0

/-- Initial `best_score` local set by `cv` when early stopping is configured
(source lines 446-449): `0.0` when maximizing, `float('inf')` when
minimizing. -/
def cvInitBestScore (maximizeScore : Bool) : PyFloat :=
  if maximizeScore then PyFloat.fin 0 else PyFloat.posInf

/-- Initial `best_score_i` set by `cv` (source line 451). -/
def cvInitBestIteration : ℤ := 0

/-- Best-state record kept as booster attributes by the early-stopping logic
(`best_score`, `best_iteration`, `best_msg`). -/
structure ESState where
  bestScore : PyFloat
  bestIteration : ℤ
  bestMsg : String
deriving DecidableEq, Repr

/-- One round of the early-stopping block in `train` (source lines 214-228),
given the already-parsed score.  Here `i` is the loop round index and
`nboostMinus1` the value `nboost - 1` stored into `best_iteration` on
improvement (line 222).  Returns the new state and whether the round
signalled STOP (the `break` on line 228). -/
def esStep (maximizeScore : Bool) (patience : ℤ) (i nboostMinus1 : ℤ)
    (score : PyFloat) (msg : String) (s : ESState) : ESState × Bool :=
  if (maximizeScore && pyLt s.bestScore score)
      || (!maximizeScore && pyLt score s.bestScore) then
    ({ bestScore := score, bestIteration := nboostMinus1, bestMsg := msg }, false)
  else if patience ≤ i - s.bestIteration then
    (s, true)
  else
    (s, false)

/-- Runs the early-stopping state machine over a list of per-round scores for
a fresh (non-resumed) run, in which round `i` stores `best_iteration = i` on
improvement; returns the final state and the round index at which STOP was
signalled, if any. -/
def runES (maximizeScore : Bool) (patience : ℤ) (scores : List ℚ) : ESState × Option ℤ :=
  go 0 { bestScore := trainInitBestScore maximizeScore,
         bestIteration := trainInitBestIteration, bestMsg := "" } scores
where
  go (i : ℤ) (s : ESState) : List ℚ → ESState × Option ℤ
    | [] => (s, none)
    | q :: rest =>
      let r := esStep maximizeScore patience i i (PyFloat.fin q) "" s
      if r.2 then (r.1, some i) else go (i + 1) r.1 rest

/-- One parsed `(metricName, value)` token of the evaluation message, as
produced by the findall on source line 201. -/
abbrev EvalTok := String × String

/-- History of one watch-list label: metric name to the ordered recorded
values (the inner dictionary of `evals_result`). -/
abbrev MetricHistory := List (String × List String)

/-- The `evals_result` container: watch-list label to its metric history. -/
abbrev EvalsResult := List (String × MetricHistory)

/-- Source lines 202-206: for watch-list label `key`, the token subsequence
the recording loop reads, via `evals_idx = evals_name.index(key)`,
`res_per_eval = len(res) // len(evals_name)` and the items
`res[(evals_idx * res_per_eval) + r]` for `r in range(res_per_eval)`. -/
def roundItems (res : List EvalTok) (evalsName : List String) (key : String) : List EvalTok :=
  (List.range (res.length / evalsName.length)).filterMap
    (fun r => res[evalsName.indexOf key * (res.length / evalsName.length) + r]?)

/-- Source lines 207-212: append one `(metricName, value)` token into a
label's metric history (append to the metric's list if present, else start a
fresh one-element list). -/
def histAppend (m : MetricHistory) (k v : String) : MetricHistory :=
  match m with
  | [] => [(k, [v])]
  | (k0, vs) :: rest =>
    if k0 = k then (k0, vs ++ [v]) :: rest else (k0, vs) :: histAppend rest k v

/-- The inner loop of lines 205-212 for one label: fold the label's token
chunk into its metric history in order. -/
def recordKey (items : List EvalTok) (m : MetricHistory) : MetricHistory :=
  items.foldl (fun m it => histAppend m it.1 it.2) m

/-- Mutation of `evals_result[key]` (the entry must exist, created on source
line 123): apply `recordKey` to the entry with the given label. -/
def erUpdate (er : EvalsResult) (key : String) (items : List EvalTok) : EvalsResult :=
  er.map (fun p => if p.1 = key then (p.1, recordKey items p.2) else p)

/-- Source line 123: `evals_result` is reset to one empty history per
watch-list label, in watch-list order. -/
def initEvalsResult (evalsName : List String) : EvalsResult :=
  evalsName.map (fun k => (k, []))

/-- The whole recording block of source lines 200-212 for one round: for each
watch-list label in order, append that label's token chunk into its entry. -/
def recordRound (res : List EvalTok) (evalsName : List String) (er : EvalsResult) : EvalsResult :=
  evalsName.foldl (fun er key => erUpdate er key (roundItems res evalsName key)) er

/-- Whitespace characters recognised by the Python str.split() calls that
appear in `aggcv` (the evaluation messages only ever contain tabs and
newlines as whitespace). -/
def isPyWs (c : Char) : Bool :=
  c = ' ' || c = '\t' || c = '\n' || c = '\r'

/-- Helper for Python str.split() with no argument: split into maximal runs
of non-whitespace characters, dropping empty pieces. -/
def pySplitWsAux : List Char → List Char → List (List Char)
  | [], acc => if acc.isEmpty then [] else [acc.reverse]
  | c :: rest, acc =>
    if isPyWs c then
      if acc.isEmpty then pySplitWsAux rest [] else acc.reverse :: pySplitWsAux rest []
    else pySplitWsAux rest (c :: acc)

/-- Python str.split() with no argument, as used on source lines 303-305. -/
def pySplitWs (s : String) : List String :=
  (pySplitWsAux s.toList []).map List.asString

/-- Helper splitting a character list at every occurrence of `sep`. -/
def splitCharAux (sep : Char) : List Char → List Char → List (List Char)
  | [], acc => [acc.reverse]
  | c :: rest, acc =>
    if c = sep then acc.reverse :: splitCharAux sep rest []
    else splitCharAux sep rest (c :: acc)

/-- Python tuple unpacking `k, v = it.split(':')` (source line 310): requires
exactly one colon; anything else raises, modelled by `none`. -/
def splitColon (s : String) : Option (String × String) :=
  match splitCharAux ':' s.toList [] with
  | [k, v] => some (k.asString, v.asString)
  | _ => none

/-- Numeric value of a decimal digit character, `none` otherwise. -/
def digitVal (c : Char) : Option ℕ :=
  if '0' ≤ c ∧ c ≤ '9' then some (c.toNat - '0'.toNat) else none

/-- Reads a digit string as a natural number; `none` on any non-digit. -/
def digitsToNat : List Char → ℕ → Option ℕ
  | [], acc => some acc
  | c :: rest, acc =>
    match digitVal c with
    | some d => digitsToNat rest (acc * 10 + d)
    | none => none

/-- Numerator and denominator of a (non-negative) decimal literal
`<digits>` or `<digits>.<digits>`, as accepted by Python float() for the
values appearing in evaluation messages. -/
def parseDecParts (cs : List Char) : Option (ℕ × ℕ) :=
  match splitCharAux '.' cs [] with
  | [ip] =>
    if ip.isEmpty then none
    else (digitsToNat ip 0).map (fun n => (n, 1))
  | [ip, fp] =>
    if ip.isEmpty && fp.isEmpty then none
    else do
      let n ← digitsToNat ip 0
      let f ← digitsToNat fp 0
      pure (n * 10 ^ fp.length + f, 10 ^ fp.length)
  | _ => none

/-- Python float() restricted to the plain decimal literals (with optional
leading minus) that the trainer's evaluation messages contain; `none` models
a ValueError. -/
def parseDec (s : String) : Option ℚ :=
  match s.toList with
  | '-' :: rest => (parseDecParts rest).map (fun p => mkRat (-(p.1 : ℤ)) p.2)
  | cs => (parseDecParts cs).map (fun p => mkRat ((p.1 : ℤ)) p.2)

/-- Source line 215, the substring after the last colon:
`msg.rsplit(':', 1)[1]`; `none` models the IndexError when the message has no
colon at all. -/
def afterLastColon (s : String) : Option String :=
  if s.toList.contains ':' then
    some ((s.toList.reverse.takeWhile (fun c => c != ':')).reverse.asString)
  else none

/-- Source line 215 in full: `score = float(msg.rsplit(':', 1)[1])` — the
score monitored by early stopping is parsed from the text after the last
colon of the whole evaluation message. -/
def scoreOf (msg : String) : Option ℚ :=
  (afterLastColon msg).bind parseDec

/-- Modelled from the spec: an evaluation message as produced by the external
trainer (outside src/), of the form
round-index, then one tab-separated `label-metric:value` token per watched
pair in watch-list order (spec section 4.1). -/
def buildMsg (idx : String) (toks : List (String × String)) : String :=
  (idx.toList
    ++ (toks.map (fun t => '\t' :: (t.1.toList ++ ':' :: t.2.toList))).flatten).asString

/-- Source lines 311-313 of `aggcv`: insert one parsed metric value into
`cvmap`, keeping first-seen key order and appending values in fold order. -/
def cvmapAdd : List (String × List ℚ) → String → ℚ → List (String × List ℚ)
  | [], k, v => [(k, [v])]
  | (k0, vs) :: rest, k, v =>
    if k0 = k then (k0, vs ++ [v]) :: rest else (k0, vs) :: cvmapAdd rest k v

/-- Source lines 304-310: one fold's evaluation line split on whitespace into
the leading round-index token and the `metric:value` tokens, each parsed;
`none` models the exceptions Python would raise on malformed tokens. -/
def lineTokens (line : String) : Option (String × List (String × ℚ)) :=
  match pySplitWs line with
  | [] => none
  | idx :: toks =>
    (toks.mapM (fun t =>
        (splitColon t).bind (fun kv =>
          (parseDec kv.2).map (fun q => (kv.1, q))))).map
      (fun parsed => (idx, parsed))

/-- The fold-message loop of source lines 304-313, carrying `cvmap`; the
equality test models the `assert idx == arr[0]` on line 306, `none` being the
assertion failure. -/
def buildCvmapAux (idx : String) : List String → List (String × List ℚ) →
    Option (List (String × List ℚ))
  | [], m => some m
  | line :: rest, m =>
    (lineTokens line).bind (fun p =>
      if p.1 = idx then
        buildCvmapAux idx rest (p.2.foldl (fun m t => cvmapAdd m t.1 t.2) m)
      else none)

/-- Source lines 302-313 of `aggcv`: the shared round-index token
(`idx = rlist[0].split()[0]`, line 303) and the per-metric value lists
collected across all fold messages. -/
def buildCvmap (rlist : List String) : Option (String × List (String × List ℚ)) :=
  match rlist with
  | [] => none
  | l0 :: _ =>
    match pySplitWs l0 with
    | [] => none
    | idx :: _ => (buildCvmapAux idx rlist []).map (fun m => (idx, m))

/-- Lexicographic-by-code-point strict comparison of character lists: the
order Python string comparison uses. -/
def strLtB : List Char → List Char → Bool
  | [], [] => false
  | [], _ :: _ => true
  | _ :: _, [] => false
  | a :: as, b :: bs => if a < b then true else if b < a then false else strLtB as bs

/-- Python string ≤ (by code points), used to model the
`sorted(cvmap.items(), key=lambda x: x[0])` on source line 324. -/
def strLeB (a b : String) : Bool :=
  !(strLtB b.toList a.toList)

/-- Ordering of `cvmap` entries by metric-name key. -/
abbrev keyLe (a b : String × List ℚ) : Prop :=
  strLeB a.1 b.1 = true

/-- Source line 324: the `cvmap` entries in metric-name sorted order. -/
def sortByKey (l : List (String × List ℚ)) : List (String × List ℚ) :=
  List.insertionSort keyLe l

/-- Sum of a list of rationals (the summation inside `np.mean`). -/
def qSum (l : List ℚ) : ℚ :=
  l.foldl qAdd 0

/-- Model of `np.mean(v)` on source line 328: sum divided by length. -/
def meanQ (l : List ℚ) : ℚ :=
  qDiv (qSum l) (mkRat (l.length) 1)

/-- The population variance, i.e. the square of `np.std(v)` (line 328):
the mean of the squared deviations from the mean. -/
def popVarQ (l : List ℚ) : ℚ :=
  meanQ (l.map (fun x => qMul (qSub x (meanQ l)) (qSub x (meanQ l))))

/-- Fuel-driven integer square-root search helper. -/
def sqrtAux (n : ℕ) : ℕ → ℕ → ℕ
  | k, 0 => k
  | k, fuel+1 => if (k + 1) * (k + 1) ≤ n then sqrtAux n (k + 1) fuel else k

/-- Integer square root (largest `k` with `k * k ≤ n` for the perfect squares
used here). -/
def natSqrtQ (n : ℕ) : ℕ :=
  sqrtAux n 0 n

/-- Rational square root on numerator and denominator.  This models
`np.std(v) = sqrt(popVarQ v)` exactly whenever the population variance is the
square of a rational, which the accompanying theorem checks for the instance
it covers (`stdQ * stdQ = popVarQ` and `0 ≤ stdQ`). -/
def ratSqrt (q : ℚ) : ℚ :=
  mkRat (natSqrtQ q.num.toNat) (natSqrtQ q.den)

/-- Model of `np.std(v)` on source line 328 (population standard deviation,
numpy's default `ddof = 0`). -/
def stdQ (l : List ℚ) : ℚ :=
  ratSqrt (popVarQ l)

/-- Decimal digits of a fraction remainder, with fuel; renders exactly the
terminating decimal expansions that occur in the aggregated results. -/
def decStrDigits (d : ℕ) : ℕ → ℕ → List Char
  | _, 0 => []
  | 0, _ => []
  | fuel+1, r => Nat.digitChar ((r * 10) / d) :: decStrDigits d fuel ((r * 10) % d)

/-- Decimal rendering of an aggregated value, as Python str() printed the
float results of this code's era of numpy for values with short terminating
decimal expansions (0.85 renders as "0.85", 1 renders as "1.0"). -/
def decStr (q : ℚ) : String :=
  (if q.num < 0 then "-" else "")
    ++ toString (q.num.natAbs / q.den) ++ "."
    ++ (if q.num.natAbs % q.den = 0 then "0"
        else (decStrDigits q.den 40 (q.num.natAbs % q.den)).asString)

/-- Source lines 315-332 of `aggcv`: round-index token plus, per metric in
sorted key order, the metric name with its mean and standard deviation. -/
def aggEntries (rlist : List String) : Option (String × List (String × ℚ × ℚ)) :=
  (buildCvmap rlist).map (fun p =>
    (p.1, (sortByKey p.2).map (fun kv => (kv.1, meanQ kv.2, stdQ kv.2))))

/-- The formatted progress line of `aggcv` (format strings on lines 317-320,
message accumulation on lines 315 and 324-329): with the standard deviation
shown the per-metric piece is "\tcv-<metric>:<mean>+<std>", without it the
"+<std>" tail is dropped. -/
def aggMsg (rlist : List String) (showStdv : Bool) : Option String :=
  (aggEntries rlist).map (fun p =>
    p.2.foldl (fun msg e =>
      msg ++ "\tcv-" ++ e.1 ++ ":" ++ decStr e.2.1
          ++ (if showStdv then "+" ++ decStr e.2.2 else "")) p.1)

/-- The structured results of `aggcv` (index/results accumulation on source
lines 322-332): per metric in sorted order, "<metric>-mean" with the mean and
"<metric>-std" with the standard deviation. -/
def aggResults (rlist : List String) : Option (List (String × ℚ)) :=
  (aggEntries rlist).map (fun p =>
    (p.2.map (fun e => [(e.1 ++ "-mean", e.2.1), (e.1 ++ "-std", e.2.2)])).flatten)

/-- Python list slicing `l[a:b]` for natural bounds (with the clipping that
slicing performs). -/
def pySlice (l : List ℕ) (a b : ℕ) : List ℕ :=
  (l.drop a).take (b - a)

/-- Source line 269 of `mknfold`: `kstep = len(randidx) / nfold` (the Python
2 floor division of the ints this code was written for). -/
def kstep (randidx : List ℕ) (nfold : ℕ) : ℕ :=
  randidx.length / nfold

/-- Source line 270: the i-th block
`randidx[(i * kstep) : min(len(randidx), (i + 1) * kstep)]` cut from the
seeded pseudo-random permutation `randidx` (the permutation itself comes from
`np.random.permutation`, outside this embedding, so it is passed in). -/
def idset (randidx : List ℕ) (nfold i : ℕ) : List ℕ :=
  pySlice randidx (i * kstep randidx nfold)
    (min randidx.length ((i + 1) * kstep randidx nfold))

/-- Source line 283: fold k's test partition is block k. -/
def testPartition (randidx : List ℕ) (nfold k : ℕ) : List ℕ :=
  idset randidx nfold k

/-- Source line 282: fold k's train partition,
`np.concatenate([idset[i] for i in range(nfold) if k != i])` — every other
block, in block order. -/
def trainPartition (randidx : List ℕ) (nfold k : ℕ) : List ℕ :=
  (((List.range nfold).filter (fun i => k ≠ i)).map (idset randidx nfold)).flatten

/-- Values of the parameter mapping: plain strings or lists of strings (the
only shapes the `eval_metric` handling in `cv` distinguishes). -/
inductive PVal where
  | str (s : String) : PVal
  | strs (l : List String) : PVal
deriving DecidableEq, Repr

/-- The caller's params argument to `cv`: a dict (modelled as an ordered
association list with distinct keys) or a list of pairs (duplicate keys
allowed, as used for repeated `eval_metric` entries). -/
inductive ParamsIn where
  | dict (d : List (String × PVal)) : ParamsIn
  | pairs (l : List (String × String)) : ParamsIn
deriving DecidableEq, Repr

/-- Python dict insertion: replace the value of an existing key in place,
else append. -/
def dictInsert (d : List (String × PVal)) (k : String) (v : PVal) :
    List (String × PVal) :=
  match d with
  | [] => [(k, v)]
  | (k0, v0) :: rest =>
    if k0 = k then (k0, v) :: rest else (k0, v0) :: dictInsert rest k v

/-- Python `dict(list-of-pairs)`: last value per key wins, keys keep
first-insertion order. -/
def dictOf (l : List (String × String)) : List (String × PVal) :=
  l.foldl (fun d kv => dictInsert d kv.1 (PVal.str kv.2)) []

/-- Python `k in d` / `d[k]` on the modelled dict. -/
def dictLookup (d : List (String × PVal)) (k : String) : Option PVal :=
  match d with
  | [] => none
  | (k0, v) :: rest => if k0 = k then some v else dictLookup rest k

/-- Python `d.pop(k, None)` restricted to its effect on the dict. -/
def dictErase (d : List (String × PVal)) (k : String) : List (String × PVal) :=
  d.filter (fun p => !(p.1 == k))

/-- Source lines 411-428 of `cv`: build the internal parameter dict — a fresh
copy of the caller's object (`dict(params)` on line 416, the dict
comprehension on line 420) — collect repeated `eval_metric` values from a
pairs-style argument (line 415, reinstalled as a list on line 418), resolve
the requested metric list (lines 422-426), and pop `eval_metric` from the
internal copy (line 428).  Returns (the caller's object as it stands after
the call, the internal dict, the resolved metrics); only the fresh copy is
ever mutated, so the first component is the unchanged input. -/
def cvParamsPhase (paramsIn : ParamsIn) (metricsArg : List String) :
    ParamsIn × List (String × PVal) × List String :=
  let internal :=
    match paramsIn with
    | ParamsIn.pairs l =>
      let ms := (l.filter (fun kv => kv.1 == "eval_metric")).map (fun kv => kv.2)
      let d := dictOf l
      if (dictLookup d ("eval_metric")).isSome then
        dictInsert d ("eval_metric") (PVal.strs ms)
      else d
    | ParamsIn.dict d => d
  let metrics :=
    if metricsArg.isEmpty then
      match dictLookup internal ("eval_metric") with
      | some (PVal.strs ls) => ls
      | some (PVal.str s) => [s]
      | none => metricsArg
    else metricsArg
  (paramsIn, dictErase internal ("eval_metric"), metrics)

/-- Source lines 430-473 of `cv`, reduced to the order of effects the claims
are about: after the parameter phase, when early stopping is configured the
multi-metric configuration check on lines 430-433 runs first; only in the
non-error case are the folds built (`mknfold`, line 453) and the per-round
per-fold updates performed (lines 454-456), here returned as the fold
partitions and the ordered (round, fold) update log. -/
def cvRun (randidx : List ℕ) (paramsIn : ParamsIn) (metricsArg : List String)
    (earlyStoppingRounds : Option ℕ) (nfold numBoostRound : ℕ) :
    Except String (List (List ℕ × List ℕ) × List (ℕ × ℕ)) :=
  let phase := cvParamsPhase paramsIn metricsArg
  let build : Except String (List (List ℕ × List ℕ) × List (ℕ × ℕ)) :=
    Except.ok
      ((List.range nfold).map
          (fun k => (trainPartition randidx nfold k, testPartition randidx nfold k)),
       (List.range numBoostRound).flatMap
          (fun i => (List.range nfold).map (fun k => (i, k))))
  match earlyStoppingRounds with
  | some _ =>
    if 1 < phase.2.2.length then
      Except.error ("Check your params. Early stopping works with single eval metric only.")
    else build
  | none => build

theorem qAdd_eq (a b : ℚ) : qAdd a b = a + b := by
  have ha : ((a.den : ℚ)) ≠ 0 := by exact_mod_cast a.den_nz
  have hb : ((b.den : ℚ)) ≠ 0 := by exact_mod_cast b.den_nz
  rw [qAdd, Rat.divInt_eq_div]
  conv_rhs => rw [← Rat.num_div_den a, ← Rat.num_div_den b]
  push_cast
  field_simp

theorem qSub_eq (a b : ℚ) : qSub a b = a - b := by
  have ha : ((a.den : ℚ)) ≠ 0 := by exact_mod_cast a.den_nz
  have hb : ((b.den : ℚ)) ≠ 0 := by exact_mod_cast b.den_nz
  rw [qSub, Rat.divInt_eq_div]
  conv_rhs => rw [← Rat.num_div_den a, ← Rat.num_div_den b]
  push_cast
  field_simp
  ring

theorem qMul_eq (a b : ℚ) : qMul a b = a * b := by
  have ha : ((a.den : ℚ)) ≠ 0 := by exact_mod_cast a.den_nz
  have hb : ((b.den : ℚ)) ≠ 0 := by exact_mod_cast b.den_nz
  rw [qMul, Rat.divInt_eq_div]
  conv_rhs => rw [← Rat.num_div_den a, ← Rat.num_div_den b]
  push_cast
  field_simp

theorem qDiv_eq (a b : ℚ) : qDiv a b = a / b := by
  rcases eq_or_ne b 0 with rfl | hb0
  · simp [qDiv]
  · have ha : ((a.den : ℚ)) ≠ 0 := by exact_mod_cast a.den_nz
    have hbn : ((b.num : ℚ)) ≠ 0 := by exact_mod_cast Rat.num_ne_zero.mpr hb0
    have hb : ((b.den : ℚ)) ≠ 0 := by exact_mod_cast b.den_nz
    rw [qDiv, Rat.divInt_eq_div]
    conv_rhs => rw [← Rat.num_div_den a, ← Rat.num_div_den b]
    push_cast
    rw [div_div_div_eq]

/-- C1: after loading the distributed checkpoint, the loop resumes at round
`floor(loadedVersion / 2)` (here `startIteration` is nat division, i.e. the
floor); for loaded version 5 the loop resumes at round 2 and, the version
being odd, the first executed round performs no update and proceeds directly
to evaluation; across the remaining rounds the update step runs exactly when
the version counter is even. -/
theorem train_resume_round_and_parity :
    startIteration 5 = 2
      ∧ (∀ v : ℕ, 2 * startIteration v ≤ v ∧ v < 2 * (startIteration v + 1))
      ∧ (∀ n : ℕ, loopRounds 5 n = List.range' 2 (n - 2))
      ∧ trainRound true 2 { version := 5, updates := [], evals := [] }
          = { version := 6, updates := [], evals := [2] }
      ∧ trainLoop true 5 4
          = { version := 8, updates := [3], evals := [2, 3] }
      ∧ (∀ (hasEvals : Bool) (i : ℕ) (s : LoopState),
          ((trainRound hasEvals i s).updates = s.updates ++ [i] ↔ s.version % 2 = 0)
            ∧ ((trainRound hasEvals i s).updates = s.updates ↔ s.version % 2 ≠ 0)) := by
  refine ⟨by decide, ?_, ?_, by decide, by decide, ?_⟩
  · intro v
    simp only [startIteration]
    omega
  · intro n
    rfl
  · intro hasEvals i s
    by_cases hv : s.version % 2 = 0 <;>
      by_cases he : hasEvals <;>
        simp [trainRound, hv, he]

/-- C2 counterexample: at world size 1 the per-round assertion of source line
181 passes even when the local version counter (5) disagrees with the
coordination layer's self-reported version (3), so the claimed
single-worker equality check does not exist: the assertion is vacuous in a
single-worker run. -/
theorem boundary_assert_single_worker_counterexample :
    boundaryAssert 1 5 3 = true ∧ (5 : ℕ) ≠ 3
      ∧ ¬ (∀ lv rv : ℕ, boundaryAssert 1 lv rv = true → lv = rv) := by
  refine ⟨by decide, by decide, fun h => ?_⟩
  have := h 5 3 (by decide)
  omega

/-- C2 amended: the version-consistency assertion of line 181 enforces
equality between the local version counter and the coordination layer's
self-reported version exactly in runs with world size different from 1
(multi-worker runs), and is vacuously true at world size 1; the load-time
assertion of line 163 enforces that at world size 1 the loaded version is
exactly 0, and is vacuously true otherwise. -/
theorem version_asserts_amended (worldSize localVersion reportedVersion loadedVersion : ℕ)
    (hw : worldSize ≠ 1) :
    (boundaryAssert worldSize localVersion reportedVersion = true
        ↔ localVersion = reportedVersion)
      ∧ boundaryAssert 1 localVersion reportedVersion = true
      ∧ (loadAssert 1 loadedVersion = true ↔ loadedVersion = 0)
      ∧ loadAssert worldSize loadedVersion = true := by
  simp [boundaryAssert, loadAssert, hw]

theorem version_asserts_amended_witness :
    ((boundaryAssert 2 5 3 = true ↔ (5 : ℕ) = 3)
        ∧ boundaryAssert 1 5 3 = true
        ∧ (loadAssert 1 4 = true ↔ (4 : ℕ) = 0)
        ∧ loadAssert 2 4 = true) :=
  version_asserts_amended 2 5 3 4 (by decide)

/-- C3 counterexample: with the direction resolved to maximize, both `train`
(line 153) and `cv` (line 447) initialise the best score to the finite value
0.0, not to negative infinity as claimed. -/
theorem init_best_score_counterexample :
    trainInitBestScore true = PyFloat.fin 0
      ∧ cvInitBestScore true = PyFloat.fin 0
      ∧ PyFloat.fin 0 ≠ PyFloat.negInf := by
  decide

/-- C3 amended: whenever early stopping is configured (in `train` or in
`cv`), the monitor's initial state is bestScore = 0.0 if the resolved
direction is maximize, bestScore = +inf if it is minimize, and
bestIteration = 0, before any round's score is observed; consequently, when
maximizing, a first observed score counts as an improvement over the initial
state exactly when it is strictly positive, while when minimizing every
finite first score counts as an improvement. -/
theorem init_best_state_amended :
    (trainInitBestScore true = PyFloat.fin 0
        ∧ trainInitBestScore false = PyFloat.posInf
        ∧ trainInitBestIteration = 0)
      ∧ (∀ m : Bool, cvInitBestScore m = trainInitBestScore m)
      ∧ cvInitBestIteration = 0
      ∧ (∀ q : ℚ, pyLt (trainInitBestScore true) (PyFloat.fin q) = true ↔ 0 < q)
      ∧ (∀ q : ℚ, pyLt (PyFloat.fin q) (trainInitBestScore false) = true) := by
  refine ⟨by decide, fun m => by cases m <;> rfl, by decide, fun q => ?_, fun q => ?_⟩
  · simp [trainInitBestScore, pyLt]
  · simp [trainInitBestScore, pyLt]

/-- C4 counterexample: the early-stopping monitor fed the score sequence
0.9, 0.85, 0.95, 0.80, 0.70 with direction maximize and patience 2 stops at
round index 4 (with bestIteration = 2 and bestScore = 0.95), not at round
index 3 as claimed: at round 3 only one round has elapsed since the best at
round 2, so the patience threshold is not yet reached. -/
theorem early_stop_example_counterexample :
    runES true 2 [mkRat 9 10, mkRat 17 20, mkRat 19 20, mkRat 4 5, mkRat 7 10]
        = ({ bestScore := PyFloat.fin (mkRat 19 20), bestIteration := 2, bestMsg := "" },
           some 4)
      ∧ (some (4 : ℤ) ≠ some 3) := by
  decide

/-- C4 amended: the monitor fed 0.9, 0.85, 0.95, 0.80, 0.70 maximizing with
patience 2 stops at round index 4 — two rounds after the best at index 2 —
with bestIteration = 2 and bestScore = 0.95; per round it updates the
best-state fields exactly when the score strictly improves in the resolved
direction, and in a non-improving round it signals STOP exactly when
i - bestIteration >= patience. -/
theorem early_stop_example_amended :
    runES true 2 [mkRat 9 10, mkRat 17 20, mkRat 19 20, mkRat 4 5, mkRat 7 10]
        = ({ bestScore := PyFloat.fin (mkRat 19 20), bestIteration := 2, bestMsg := "" },
           some 4)
      ∧ (∀ (m : Bool) (p i n : ℤ) (sc : PyFloat) (msg : String) (s : ESState),
          esStep m p i n sc msg s
            = if (if m then pyLt s.bestScore sc else pyLt sc s.bestScore) then
                ({ bestScore := sc, bestIteration := n, bestMsg := msg }, false)
              else
                (s, decide (p ≤ i - s.bestIteration))) := by
  refine ⟨by decide, ?_⟩
  intro m p i n sc msg s
  cases m <;> simp [esStep] <;> split <;> simp_all <;>
    by_cases hp : p ≤ i - s.bestIteration <;> simp [hp]

theorem filterMap_getElem_range {α : Type} (l : List α) (a : ℕ) :
    ∀ n : ℕ, (List.range n).filterMap (fun r => l[a + r]?) = (l.drop a).take n := by
  intro n
  induction n with
  | zero => simp
  | succ n ih =>
    rw [List.range_succ, List.filterMap_append, ih, List.take_succ]
    cases h : l[a + n]? <;> simp [List.filterMap_cons, List.getElem?_drop, h]

theorem foldl_erUpdate (F : String → List EvalTok) :
    ∀ (ks : List String) (er : EvalsResult), ks.Nodup →
      ks.foldl (fun er key => erUpdate er key (F key)) er
        = er.map (fun p => if p.1 ∈ ks then (p.1, recordKey (F p.1) p.2) else p) := by
  intro ks
  induction ks with
  | nil =>
    intro er _
    simp
  | cons k0 ks ih =>
    intro er hnd
    have hk0 : k0 ∉ ks := (List.nodup_cons.mp hnd).1
    rw [List.foldl_cons, ih _ (List.nodup_cons.mp hnd).2, erUpdate, List.map_map]
    refine List.map_congr_left ?_
    intro p _
    by_cases h0 : p.1 = k0
    · simp [h0, hk0]
    · by_cases hmem : p.1 ∈ ks <;> simp [h0, hmem]

/-- C5: when `train` records a round's evaluation into `evals_result`, the
parsed tokens are partitioned positionally: the tokens read for the k-th
watch-list label are exactly the contiguous chunk
`res[k*c : k*c + c]` with `c = len(res) // len(evalsName)` — no matching of
metric names against the label text — and the updated container holds, for
each label in watch-list order, its chunk folded in order into that label's
metric history. -/
theorem eval_history_chunking (res : List EvalTok) (evalsName : List String)
    (hnd : evalsName.Nodup) :
    (∀ (k : ℕ) (hk : k < evalsName.length),
        roundItems res evalsName evalsName[k]
          = (res.drop (k * (res.length / evalsName.length))).take
              (res.length / evalsName.length))
      ∧ recordRound res evalsName (initEvalsResult evalsName)
          = evalsName.map (fun key => (key, recordKey (roundItems res evalsName key) [])) := by
  constructor
  · intro k hk
    rw [roundItems, List.indexOf_getElem hnd k hk]
    exact filterMap_getElem_range res _ _
  · rw [recordRound, foldl_erUpdate _ _ _ hnd, initEvalsResult, List.map_map]
    refine List.map_congr_left ?_
    intro key hkey
    simp [hkey]

theorem takeWhile_append_all {p : Char → Bool} :
    ∀ (l₁ l₂ : List Char), (∀ a ∈ l₁, p a = true) →
      (l₁ ++ l₂).takeWhile p = l₁ ++ l₂.takeWhile p := by
  intro l₁
  induction l₁ with
  | nil => intro l₂ _; rfl
  | cons a as ih =>
    intro l₂ h
    have ha : p a = true := h a (List.mem_cons_self a as)
    simp [List.takeWhile_cons, ha]
    exact ih l₂ (fun b hb => h b (List.mem_cons_of_mem a hb))

theorem afterLastColon_append (xs v : List Char) (hv : ':' ∉ v) :
    afterLastColon (xs ++ ':' :: v).asString = some v.asString := by
  have hl := List.toList_asString (xs ++ ':' :: v)
  rw [afterLastColon, hl]
  have hc : (xs ++ ':' :: v).contains ':' = true := by
    simp
  rw [if_pos hc]
  have hrev : (xs ++ ':' :: v).reverse = v.reverse ++ ':' :: xs.reverse := by
    simp
  rw [hrev, takeWhile_append_all _ _ (fun a ha => ?_)]
  · simp [List.takeWhile_cons]
  · have : a ∈ v := List.mem_reverse.mp ha
    have : a ≠ ':' := fun h => hv (h ▸ this)
    simpa using this

/-- C9: the score compared against the best each round is obtained by
splitting the full evaluation message at its last colon and parsing what
follows — i.e. the value of the final metric of the last watch-list entry;
the round index, the labels and every earlier metric value in the message
have no influence on the parsed score. -/
theorem early_stop_score_is_last_token (idx name v : String)
    (pre : List (String × String)) (hv : ':' ∉ v.toList) :
    scoreOf (buildMsg idx (pre ++ [(name, v)])) = parseDec v := by
  rw [scoreOf, buildMsg]
  have hshape :
      idx.toList ++ (List.map (fun t => '\t' :: (t.1.toList ++ ':' :: t.2.toList))
          (pre ++ [(name, v)])).flatten
        = (idx.toList
            ++ (List.map (fun t => '\t' :: (t.1.toList ++ ':' :: t.2.toList)) pre).flatten
            ++ '\t' :: name.toList) ++ ':' :: v.toList := by
    simp
  rw [hshape, afterLastColon_append _ _ hv, Option.some_bind, String.asString_toList]

theorem qFoldl_eq : ∀ (l : List ℚ) (acc : ℚ), l.foldl qAdd acc = acc + l.sum := by
  intro l
  induction l with
  | nil => intro acc; simp [List.foldl_nil]
  | cons x xs ih =>
    intro acc
    rw [List.foldl_cons, ih, qAdd_eq, List.sum_cons]
    ring

theorem qSum_eq (l : List ℚ) : qSum l = l.sum := by
  rw [qSum, qFoldl_eq]
  ring

theorem mkRat_natCast (n : ℕ) : mkRat (n : ℤ) 1 = (n : ℚ) := by
  rw [Rat.mkRat_one]
  norm_cast

theorem meanQ_eq (l : List ℚ) : meanQ l = l.sum / (l.length : ℚ) := by
  rw [meanQ, qDiv_eq, qSum_eq, mkRat_natCast]

theorem popVarQ_eq (l : List ℚ) :
    popVarQ l = (l.map (fun x => (x - meanQ l) ^ 2)).sum / (l.length : ℚ) := by
  rw [popVarQ, meanQ_eq]
  simp only [qMul_eq, qSub_eq, List.length_map]
  congr 1
  refine congrArg List.sum (List.map_congr_left ?_)
  intro x _
  ring

theorem strLtB_iff :
    ∀ (x y : List Char), strLtB x y = true ↔ List.Lex (· < ·) x y := by
  intro x
  induction x with
  | nil =>
    intro y
    cases y with
    | nil =>
      constructor
      · intro h; exact absurd h (by simp [strLtB])
      · intro h; cases h
    | cons b bs =>
      simp [strLtB]
      exact List.Lex.nil
  | cons a as ih =>
    intro y
    cases y with
    | nil =>
      constructor
      · intro h; exact absurd h (by simp [strLtB])
      · intro h; cases h
    | cons b bs =>
      by_cases hab : a < b
      · simp only [strLtB, if_pos hab, true_iff]
        exact List.Lex.rel hab
      · by_cases hba : b < a
        · have hf : strLtB (a :: as) (b :: bs) = false := by
            simp [strLtB, hab, hba]
          rw [hf]
          constructor
          · intro h; exact absurd h (by simp)
          · intro h
            cases h with
            | rel hr => exact absurd hr hab
            | cons hc => exact absurd hba (lt_irrefl a)
        · have heq : a = b := le_antisymm (le_of_not_lt hba) (le_of_not_lt hab)
          subst heq
          simp only [strLtB, if_neg hab, List.Lex.cons_iff]
          exact ih bs

theorem keyLe_iff (a b : String × List ℚ) :
    keyLe a b ↔ ¬ List.Lex (· < ·) b.1.toList a.1.toList := by
  rw [keyLe, strLeB, Bool.not_eq_eq_eq_not, Bool.not_true, ← strLtB_iff]
  simp

theorem keyLe_total (a b : String × List ℚ) : keyLe a b ∨ keyLe b a := by
  rcases trichotomous_of (List.Lex ((· < ·) : Char → Char → Prop)) a.1.toList b.1.toList with h | h | h
  · exact Or.inl ((keyLe_iff a b).mpr (asymm_of (List.Lex ((· < ·) : Char → Char → Prop)) h))
  · exact Or.inl ((keyLe_iff a b).mpr (fun hc => by rw [h] at hc; exact irrefl_of _ _ hc))
  · exact Or.inr ((keyLe_iff b a).mpr (asymm_of (List.Lex ((· < ·) : Char → Char → Prop)) h))

theorem keyLe_trans (a b c : String × List ℚ) :
    keyLe a b → keyLe b c → keyLe a c := by
  intro h1 h2
  rw [keyLe_iff] at h1 h2 ⊢
  intro hca
  rcases trichotomous_of (List.Lex ((· < ·) : Char → Char → Prop)) b.1.toList a.1.toList with h | h | h
  · exact h1 h
  · exact h2 (h ▸ hca)
  · exact h2 (IsTrans.trans _ _ _ hca h)

theorem sortByKey_pairwise (l : List (String × List ℚ)) :
    (sortByKey l).Pairwise keyLe := by
  haveI : IsTotal (String × List ℚ) keyLe := ⟨keyLe_total⟩
  haveI : IsTrans (String × List ℚ) keyLe := ⟨keyLe_trans⟩
  exact List.sorted_insertionSort keyLe l

/-- C6: `aggcv`, per metric name (the token text before the colon), computes
the mean and the population standard deviation of the metric's parsed values
across folds, emits metrics in metric-name sorted order, and formats the
progress line as round-index then "\tcv-<metric>:<mean>+<std>" per metric,
dropping "+<std>" when the standard-deviation display is suppressed; for the
fold messages "0\ttrain-auc:0.80" and "0\ttrain-auc:0.90" it yields mean
0.85, population standard deviation 0.05 (the nonnegative root of the
population variance 1/400), the line "0\tcv-train-auc:0.85+0.05", and the
structured pair under keys "train-auc-mean"/"train-auc-std". -/
theorem aggcv_mean_std_sorted_format :
    buildCvmap ["0\ttrain-auc:0.80", "0\ttrain-auc:0.90"]
        = some ("0", [("train-auc", [mkRat 4 5, mkRat 9 10])])
      ∧ (∀ l : List ℚ, meanQ l = l.sum / (l.length : ℚ))
      ∧ (∀ l : List ℚ,
          popVarQ l = (l.map (fun x => (x - meanQ l) ^ 2)).sum / (l.length : ℚ))
      ∧ meanQ [mkRat 4 5, mkRat 9 10] = mkRat 17 20
      ∧ popVarQ [mkRat 4 5, mkRat 9 10] = mkRat 1 400
      ∧ stdQ [mkRat 4 5, mkRat 9 10] = mkRat 1 20
      ∧ qMul (stdQ [mkRat 4 5, mkRat 9 10]) (stdQ [mkRat 4 5, mkRat 9 10])
          = popVarQ [mkRat 4 5, mkRat 9 10]
      ∧ (0 : ℚ) ≤ stdQ [mkRat 4 5, mkRat 9 10]
      ∧ aggMsg ["0\ttrain-auc:0.80", "0\ttrain-auc:0.90"] true
          = some ("0\tcv-train-auc:0.85+0.05")
      ∧ aggMsg ["0\ttrain-auc:0.80", "0\ttrain-auc:0.90"] false
          = some ("0\tcv-train-auc:0.85")
      ∧ aggResults ["0\ttrain-auc:0.80", "0\ttrain-auc:0.90"]
          = some [("train-auc-mean", mkRat 17 20), ("train-auc-std", mkRat 1 20)]
      ∧ (∀ cvmap : List (String × List ℚ),
          ((sortByKey cvmap).map
              (fun kv => (kv.1, meanQ kv.2, stdQ kv.2))).Pairwise
            (fun a b => strLeB a.1 b.1 = true)) := by
  refine ⟨by decide, meanQ_eq, popVarQ_eq, by decide, by decide, by decide, by decide,
    by decide, by decide, by decide, by decide, ?_⟩
  intro cvmap
  exact (sortByKey_pairwise cvmap).map _ (fun a b hab => hab)

theorem early_stop_score_is_last_token_witness :
    scoreOf (buildMsg ("[3]") [("train-auc", "0.75"), ("eval-auc", "0.66")])
        = parseDec ("0.66")
      ∧ parseDec ("0.66") = some (mkRat 33 50) :=
  ⟨early_stop_score_is_last_token ("[3]") ("eval-auc") ("0.66")
      [("train-auc", "0.75")] (by decide),
   by decide⟩

theorem eval_history_chunking_witness :
    (∀ (k : ℕ) (hk : k < (["train", "eval"] : List String).length),
        roundItems [("auc", "0.9"), ("rmse", "1.2"), ("auc", "0.8"), ("rmse", "1.5")]
            ["train", "eval"] (["train", "eval"] : List String)[k]
          = (([("auc", "0.9"), ("rmse", "1.2"), ("auc", "0.8"), ("rmse", "1.5")] :
                List EvalTok).drop (k * 2)).take 2)
      ∧ recordRound [("auc", "0.9"), ("rmse", "1.2"), ("auc", "0.8"), ("rmse", "1.5")]
            ["train", "eval"] (initEvalsResult ["train", "eval"])
          = [("train", [("auc", ["0.9"]), ("rmse", ["1.2"])]),
             ("eval", [("auc", ["0.8"]), ("rmse", ["1.5"])])] := by
  have h := eval_history_chunking
    [("auc", "0.9"), ("rmse", "1.2"), ("auc", "0.8"), ("rmse", "1.5")]
    ["train", "eval"] (by decide)
  exact ⟨fun k hk => by simpa using h.1 k hk, by simpa using h.2⟩

/-- Helper: when a train/test concatenation is a permutation of a duplicate-free
full index list, the train part is exactly the complement of the test part. -/
theorem complement_of_perm {train testl full : List ℕ} (hnd : full.Nodup)
    (hp : List.Perm (train ++ testl) full) :
    ∀ x, x ∈ train ↔ (x ∈ full ∧ x ∉ testl) := by
  intro x
  have hnd2 : (train ++ testl).Nodup := (hp.nodup_iff).mpr hnd
  rw [List.nodup_append] at hnd2
  constructor
  · intro hx
    exact ⟨hp.mem_iff.mp (List.mem_append.mpr (Or.inl hx)),
      fun hc => hnd2.2.2 hx hc⟩
  · rintro ⟨hfull, hnot⟩
    rcases List.mem_append.mp (hp.mem_iff.mpr hfull) with h | h
    · exact h
    · exact absurd h hnot

set_option maxHeartbeats 1000000 in
/-- C7: `mknfold` in plain mode (non-stratified, no explicit folds) with
R = 10 rows and N = 5 folds, for any permutation `randidx` of the 10 row
indices produced by the seeded RNG: the 5 test partitions are pairwise
disjoint, their union is all 10 row indices, each fold's train partition is
exactly the complement of its test partition, and each test block is the
slice `randidx[i * step : min(R, (i + 1) * step)]` with
`step = floor(R / N) = 2`. -/
theorem mknfold_plain_partitions (randidx : List ℕ)
    (hperm : List.Perm randidx (List.range 10)) :
    (∀ i j, i < 5 → j < 5 → i ≠ j →
        ∀ x ∈ testPartition randidx 5 i, x ∉ testPartition randidx 5 j)
      ∧ (∀ x, (∃ k, k < 5 ∧ x ∈ testPartition randidx 5 k) ↔ x ∈ List.range 10)
      ∧ (∀ k, k < 5 →
          ∀ x, x ∈ trainPartition randidx 5 k
            ↔ (x ∈ List.range 10 ∧ x ∉ testPartition randidx 5 k))
      ∧ (∀ k, k < 5 →
          testPartition randidx 5 k = pySlice randidx (k * 2) (min 10 ((k + 1) * 2))) := by
  have hlen : randidx.length = 10 := hperm.length_eq.trans (List.length_range 10)
  have hnd : randidx.Nodup := hperm.nodup_iff.mpr (List.nodup_range 10)
  have hmem : ∀ x, x ∈ randidx ↔ x ∈ List.range 10 := fun x => hperm.mem_iff
  obtain ⟨a0, a1, a2, a3, a4, a5, a6, a7, a8, a9, hl⟩ :
      ∃ b0 b1 b2 b3 b4 b5 b6 b7 b8 b9,
        randidx = [b0, b1, b2, b3, b4, b5, b6, b7, b8, b9] := by
    rcases randidx with _ | ⟨c0, _ | ⟨c1, _ | ⟨c2, _ | ⟨c3, _ | ⟨c4, _ | ⟨c5, _ | ⟨c6, _ |
      ⟨c7, _ | ⟨c8, _ | ⟨c9, _ | ⟨c10, t⟩⟩⟩⟩⟩⟩⟩⟩⟩⟩⟩ <;>
        first
          | exact ⟨_, _, _, _, _, _, _, _, _, _, rfl⟩
          | exact absurd hlen (by simp)
  subst hl
  have e0 : testPartition [a0, a1, a2, a3, a4, a5, a6, a7, a8, a9] 5 0 = [a0, a1] := by
    simp [testPartition, idset, pySlice, kstep]
  have e1 : testPartition [a0, a1, a2, a3, a4, a5, a6, a7, a8, a9] 5 1 = [a2, a3] := by
    simp [testPartition, idset, pySlice, kstep]
  have e2 : testPartition [a0, a1, a2, a3, a4, a5, a6, a7, a8, a9] 5 2 = [a4, a5] := by
    simp [testPartition, idset, pySlice, kstep]
  have e3 : testPartition [a0, a1, a2, a3, a4, a5, a6, a7, a8, a9] 5 3 = [a6, a7] := by
    simp [testPartition, idset, pySlice, kstep]
  have e4 : testPartition [a0, a1, a2, a3, a4, a5, a6, a7, a8, a9] 5 4 = [a8, a9] := by
    simp [testPartition, idset, pySlice, kstep]
  have t0 : trainPartition [a0, a1, a2, a3, a4, a5, a6, a7, a8, a9] 5 0
      = [a2, a3, a4, a5, a6, a7, a8, a9] := by
    simp [trainPartition, idset, pySlice, kstep, List.range_succ]
  have t1 : trainPartition [a0, a1, a2, a3, a4, a5, a6, a7, a8, a9] 5 1
      = [a0, a1, a4, a5, a6, a7, a8, a9] := by
    simp [trainPartition, idset, pySlice, kstep, List.range_succ]
  have t2 : trainPartition [a0, a1, a2, a3, a4, a5, a6, a7, a8, a9] 5 2
      = [a0, a1, a2, a3, a6, a7, a8, a9] := by
    simp [trainPartition, idset, pySlice, kstep, List.range_succ]
  have t3 : trainPartition [a0, a1, a2, a3, a4, a5, a6, a7, a8, a9] 5 3
      = [a0, a1, a2, a3, a4, a5, a8, a9] := by
    simp [trainPartition, idset, pySlice, kstep, List.range_succ]
  have t4 : trainPartition [a0, a1, a2, a3, a4, a5, a6, a7, a8, a9] 5 4
      = [a0, a1, a2, a3, a4, a5, a6, a7] := by
    simp [trainPartition, idset, pySlice, kstep, List.range_succ]
  have H : ([a0, a1] ++ ([a2, a3] ++ ([a4, a5] ++ ([a6, a7] ++ [a8, a9])))).Nodup := hnd
  simp only [List.nodup_append, List.disjoint_append_right] at H
  obtain ⟨-, ⟨-, ⟨-, ⟨-, -, d34⟩, d23, d24⟩, d12, d13, d14⟩, d01, d02, d03, d04⟩ := H
  refine ⟨?_, ?_, ?_, ?_⟩
  · intro i j hi hj hij x hx hx2
    interval_cases i <;> interval_cases j
    · exact absurd rfl hij
    · exact d01 (e0 ▸ hx) (e1 ▸ hx2)
    · exact d02 (e0 ▸ hx) (e2 ▸ hx2)
    · exact d03 (e0 ▸ hx) (e3 ▸ hx2)
    · exact d04 (e0 ▸ hx) (e4 ▸ hx2)
    · exact d01.symm (e1 ▸ hx) (e0 ▸ hx2)
    · exact absurd rfl hij
    · exact d12 (e1 ▸ hx) (e2 ▸ hx2)
    · exact d13 (e1 ▸ hx) (e3 ▸ hx2)
    · exact d14 (e1 ▸ hx) (e4 ▸ hx2)
    · exact d02.symm (e2 ▸ hx) (e0 ▸ hx2)
    · exact d12.symm (e2 ▸ hx) (e1 ▸ hx2)
    · exact absurd rfl hij
    · exact d23 (e2 ▸ hx) (e3 ▸ hx2)
    · exact d24 (e2 ▸ hx) (e4 ▸ hx2)
    · exact d03.symm (e3 ▸ hx) (e0 ▸ hx2)
    · exact d13.symm (e3 ▸ hx) (e1 ▸ hx2)
    · exact d23.symm (e3 ▸ hx) (e2 ▸ hx2)
    · exact absurd rfl hij
    · exact d34 (e3 ▸ hx) (e4 ▸ hx2)
    · exact d04.symm (e4 ▸ hx) (e0 ▸ hx2)
    · exact d14.symm (e4 ▸ hx) (e1 ▸ hx2)
    · exact d24.symm (e4 ▸ hx) (e2 ▸ hx2)
    · exact d34.symm (e4 ▸ hx) (e3 ▸ hx2)
    · exact absurd rfl hij
  · intro x
    constructor
    · rintro ⟨k, hk, hx⟩
      refine (hmem x).mp ?_
      interval_cases k
      · rw [e0] at hx
        simp only [List.mem_cons, List.not_mem_nil, or_false] at hx ⊢
        tauto
      · rw [e1] at hx
        simp only [List.mem_cons, List.not_mem_nil, or_false] at hx ⊢
        tauto
      · rw [e2] at hx
        simp only [List.mem_cons, List.not_mem_nil, or_false] at hx ⊢
        tauto
      · rw [e3] at hx
        simp only [List.mem_cons, List.not_mem_nil, or_false] at hx ⊢
        tauto
      · rw [e4] at hx
        simp only [List.mem_cons, List.not_mem_nil, or_false] at hx ⊢
        tauto
    · intro hx
      have hx2 := (hmem x).mpr hx
      simp only [List.mem_cons, List.not_mem_nil, or_false] at hx2
      rcases hx2 with rfl|rfl|rfl|rfl|rfl|rfl|rfl|rfl|rfl|rfl
      · exact ⟨0, by omega, by rw [e0]; simp⟩
      · exact ⟨0, by omega, by rw [e0]; simp⟩
      · exact ⟨1, by omega, by rw [e1]; simp⟩
      · exact ⟨1, by omega, by rw [e1]; simp⟩
      · exact ⟨2, by omega, by rw [e2]; simp⟩
      · exact ⟨2, by omega, by rw [e2]; simp⟩
      · exact ⟨3, by omega, by rw [e3]; simp⟩
      · exact ⟨3, by omega, by rw [e3]; simp⟩
      · exact ⟨4, by omega, by rw [e4]; simp⟩
      · exact ⟨4, by omega, by rw [e4]; simp⟩
  · intro k hk x
    interval_cases k
    · have hp : List.Perm
          ([a2, a3, a4, a5, a6, a7, a8, a9] ++ [a0, a1])
          [a0, a1, a2, a3, a4, a5, a6, a7, a8, a9] :=
        (List.perm_append_comm :
          List.Perm ([a2, a3, a4, a5, a6, a7, a8, a9] ++ [a0, a1])
            ([a0, a1] ++ [a2, a3, a4, a5, a6, a7, a8, a9]))
      have hc := complement_of_perm hnd hp x
      rw [hmem x] at hc
      rw [t0, e0]
      exact hc
    · have hp : List.Perm
          ([a0, a1, a4, a5, a6, a7, a8, a9] ++ [a2, a3])
          [a0, a1, a2, a3, a4, a5, a6, a7, a8, a9] :=
        List.Perm.append_left [a0, a1]
          (List.perm_append_comm :
            List.Perm ([a4, a5, a6, a7, a8, a9] ++ [a2, a3])
              ([a2, a3] ++ [a4, a5, a6, a7, a8, a9]))
      have hc := complement_of_perm hnd hp x
      rw [hmem x] at hc
      rw [t1, e1]
      exact hc
    · have hp : List.Perm
          ([a0, a1, a2, a3, a6, a7, a8, a9] ++ [a4, a5])
          [a0, a1, a2, a3, a4, a5, a6, a7, a8, a9] :=
        List.Perm.append_left [a0, a1, a2, a3]
          (List.perm_append_comm :
            List.Perm ([a6, a7, a8, a9] ++ [a4, a5])
              ([a4, a5] ++ [a6, a7, a8, a9]))
      have hc := complement_of_perm hnd hp x
      rw [hmem x] at hc
      rw [t2, e2]
      exact hc
    · have hp : List.Perm
          ([a0, a1, a2, a3, a4, a5, a8, a9] ++ [a6, a7])
          [a0, a1, a2, a3, a4, a5, a6, a7, a8, a9] :=
        List.Perm.append_left [a0, a1, a2, a3, a4, a5]
          (List.perm_append_comm :
            List.Perm ([a8, a9] ++ [a6, a7]) ([a6, a7] ++ [a8, a9]))
      have hc := complement_of_perm hnd hp x
      rw [hmem x] at hc
      rw [t3, e3]
      exact hc
    · have hp : List.Perm
          ([a0, a1, a2, a3, a4, a5, a6, a7] ++ [a8, a9])
          [a0, a1, a2, a3, a4, a5, a6, a7, a8, a9] :=
        List.Perm.refl _
      have hc := complement_of_perm hnd hp x
      rw [hmem x] at hc
      rw [t4, e4]
      exact hc
  · intro k hk
    interval_cases k <;> simp [testPartition, idset, pySlice, kstep]

theorem mknfold_plain_partitions_witness :
    (∀ i j, i < 5 → j < 5 → i ≠ j →
        ∀ x ∈ testPartition [2, 5, 0, 9, 1, 7, 4, 8, 3, 6] 5 i,
          x ∉ testPartition [2, 5, 0, 9, 1, 7, 4, 8, 3, 6] 5 j)
      ∧ (∀ x, (∃ k, k < 5 ∧ x ∈ testPartition [2, 5, 0, 9, 1, 7, 4, 8, 3, 6] 5 k)
          ↔ x ∈ List.range 10)
      ∧ (∀ k, k < 5 →
          ∀ x, x ∈ trainPartition [2, 5, 0, 9, 1, 7, 4, 8, 3, 6] 5 k
            ↔ (x ∈ List.range 10 ∧ x ∉ testPartition [2, 5, 0, 9, 1, 7, 4, 8, 3, 6] 5 k))
      ∧ (∀ k, k < 5 →
          testPartition [2, 5, 0, 9, 1, 7, 4, 8, 3, 6] 5 k
            = pySlice [2, 5, 0, 9, 1, 7, 4, 8, 3, 6] (k * 2) (min 10 ((k + 1) * 2))) :=
  mknfold_plain_partitions [2, 5, 0, 9, 1, 7, 4, 8, 3, 6] (by decide)

theorem dictLookup_erase (d : List (String × PVal)) (k : String) :
    dictLookup (dictErase d k) k = none := by
  induction d with
  | nil => rfl
  | cons p rest ih =>
    by_cases hk : p.1 = k
    · simp [dictErase, List.filter_cons, hk] at ih ⊢
      simpa [dictErase] using ih
    · simp [dictErase, List.filter_cons, hk, dictLookup] at ih ⊢
      simpa [dictErase, dictLookup, hk] using ih

/-- C8: `cv` called with early stopping configured and more than one resolved
evaluation metric (whether from the metrics argument or from the parameter
set's eval_metric) returns the fatal configuration error, before any fold is
built and before any fold update is performed (the fold partitions and the
update log exist only in the non-error result). -/
theorem cv_rejects_multi_metric_early_stopping
    (randidx : List ℕ) (paramsIn : ParamsIn) (metricsArg : List String)
    (es : ℕ) (nfold numBoostRound : ℕ)
    (hm : 1 < (cvParamsPhase paramsIn metricsArg).2.2.length) :
    cvRun randidx paramsIn metricsArg (some es) nfold numBoostRound
      = Except.error
          ("Check your params. Early stopping works with single eval metric only.") := by
  simp [cvRun, hm]

theorem cv_rejects_multi_metric_early_stopping_witness :
    cvRun [] (ParamsIn.dict []) ["auc", "rmse"] (some 3) 3 2
        = Except.error
            ("Check your params. Early stopping works with single eval metric only.")
      ∧ cvRun [] (ParamsIn.dict [("eval_metric", PVal.strs ["auc", "rmse"])]) []
            (some 3) 3 2
        = Except.error
            ("Check your params. Early stopping works with single eval metric only.") :=
  ⟨cv_rejects_multi_metric_early_stopping [] (ParamsIn.dict []) ["auc", "rmse"] 3 3 2
      (by decide),
   cv_rejects_multi_metric_early_stopping []
      (ParamsIn.dict [("eval_metric", PVal.strs ["auc", "rmse"])]) [] 3 3 2 (by decide)⟩

/-- C10: `cv` never mutates the caller-supplied parameter set: the parameter
phase works on a fresh copy, so the caller's object after the call is exactly
the input (including any eval_metric entry), while the internal copy has
eval_metric removed. -/
theorem cv_caller_params_unchanged (paramsIn : ParamsIn) (metricsArg : List String) :
    (cvParamsPhase paramsIn metricsArg).1 = paramsIn
      ∧ dictLookup (cvParamsPhase paramsIn metricsArg).2.1 ("eval_metric") = none :=
  ⟨rfl, dictLookup_erase _ _⟩
